import Mathlib

/-!
Verification of the Google-Maps-link extractor (`src/main.py`).

The Python source is shallowly embedded: strings are Lean `String`s
processed as `List Char`, Python `float` values are modelled as exact
rationals (`ℚ`, built with `mkRat`; IEEE-754 rounding is not modelled),
`None`-able values are `Option`s, and the regular expressions of the
source are hand-compiled deterministic scanners implementing Python
`re.search`/`re.match` leftmost semantics for those concrete patterns.
Network traffic (`requests`) is modelled by an oracle structure `Net`
whose fields give, per request, either the decoded response data or
`none` for "an exception was raised / non-success status".  The
haversine distance (transcendental float arithmetic) is abstracted as a
function parameter `dist`; it only influences the ordering of POI
candidates.  Unicode NFKC normalization is modelled as the identity,
which is correct on the character ranges exercised here; Unicode case
mapping is modelled for ASCII and the Latin-1 uppercase range.
-/

/-! ## Character helpers -/

/-- ASCII decimal digit, as matched by `\d` in the source's regexes
(ASCII interpretation; the URLs handled are ASCII). -/
def isDigitC (c : Char) : Bool := 48 ≤ c.toNat && c.toNat ≤ 57

/-- Whitespace as recognised by Python's `str.strip` / regex `\s`
(ASCII part plus the common Unicode whitespace code points). -/
def isPySpace (c : Char) : Bool :=
  let n := c.toNat
  (9 ≤ n && n ≤ 13) || n = 32 || (28 ≤ n && n ≤ 31) || n = 133 || n = 160 ||
  (8192 ≤ n && n ≤ 8202) || n = 8232 || n = 8233 || n = 8239 || n = 8287 || n = 12288

/-- Python `str.lower` on one character: ASCII letters plus the Latin-1
uppercase range (`À`–`Þ` except `×`), which covers the Portuguese
keyword alphabet used by the heuristic. -/
def pyLowerC (c : Char) : Char :=
  let n := c.toNat
  if 65 ≤ n && n ≤ 90 then Char.ofNat (n + 32)
  else if (192 ≤ n && n ≤ 214) || (216 ≤ n && n ≤ 222) then Char.ofNat (n + 32)
  else c

/-- Unicode general categories Cc / Cf / Cs, as tested by
`unicodedata.category(ch) in {"Cc", "Cf", "Cs"}` (the table is restricted
to the ranges that can appear in the modelled inputs). -/
def isCcCfCs (c : Char) : Bool :=
  let n := c.toNat
  n < 32 || n = 127 || (128 ≤ n && n ≤ 159) || n = 173 ||
  (8203 ≤ n && n ≤ 8207) || (8234 ≤ n && n ≤ 8238) || (8288 ≤ n && n ≤ 8292) || n = 65279

/-- Hexadecimal digit (for percent-decoding). -/
def isHexC (c : Char) : Bool :=
  let n := c.toNat
  (48 ≤ n && n ≤ 57) || (65 ≤ n && n ≤ 70) || (97 ≤ n && n ≤ 102)

/-- Value of a hexadecimal digit. -/
def hexVal (c : Char) : Nat :=
  let n := c.toNat
  if n ≤ 57 then n - 48 else if n ≤ 70 then n - 55 else n - 87

/-! ## List-of-characters helpers shared by several source functions -/

/-- Lowercase a string, as `str.lower`. -/
def pyLower (cs : List Char) : List Char := cs.map pyLowerC

/-- `str.strip()`: drop whitespace from both ends. -/
def pyStrip (cs : List Char) : List Char :=
  ((cs.dropWhile isPySpace).reverse.dropWhile isPySpace).reverse

/-- Substring test, as Python's `needle in hay`. -/
def containsSub (needle : List Char) : List Char → Bool
  | [] => needle.isPrefixOf []
  | c :: t => needle.isPrefixOf (c :: t) || containsSub needle t

/-- Split a list at every occurrence of `sep`, as `str.split(sep)`. -/
def splitOnC (sep : Char) : List Char → List (List Char)
  | [] => [[]]
  | c :: t =>
    let r := splitOnC sep t
    if c = sep then [] :: r
    else match r with
      | [] => [[c]]
      | h :: t2 => (c :: h) :: t2

/-- Split at the first occurrence of `sep`, returning `none` when `sep`
does not occur (as `str.split(sep, 1)` having one or two pieces). -/
def splitFirst (sep : Char) : List Char → Option (List Char × List Char)
  | [] => none
  | c :: t =>
    if c = sep then some ([], t)
    else match splitFirst sep t with
      | none => none
      | some (a, b) => some (c :: a, b)

/-- `urllib.parse.unquote`: decode `%XX` escapes; malformed escapes are
kept verbatim.  Each decoded byte becomes the code point of the same
value (multi-byte UTF-8 sequences are not recombined; the modelled
inputs are ASCII). -/
def unquote : List Char → List Char
  | '%' :: h1 :: h2 :: t =>
    if isHexC h1 && isHexC h2 then Char.ofNat (16 * hexVal h1 + hexVal h2) :: unquote t
    else '%' :: unquote (h1 :: h2 :: t)
  | c :: t => c :: unquote t
  | [] => []

/-- `str.replace("+", " ")`. -/
def replacePlus (cs : List Char) : List Char :=
  cs.map (fun c => if c = '+' then ' ' else c)

/-- Worker for `collapseSpaces`; the flag records being inside a
whitespace run whose single replacement space was already emitted. -/
def collapseGo : Bool → List Char → List Char
  | _, [] => []
  | true, c :: t => if isPySpace c then collapseGo true t else c :: collapseGo false t
  | false, c :: t =>
    if isPySpace c then
      match t with
      | c2 :: _ => if isPySpace c2 then ' ' :: collapseGo true t else c :: collapseGo false t
      | [] => [c]
    else c :: collapseGo false t

/-- `re.sub(r"\s{2,}", " ", s)`: each maximal run of two or more
whitespace characters becomes a single ASCII space; a lone whitespace
character is left as it is. -/
def collapseSpaces (cs : List Char) : List Char := collapseGo false cs

/-! ## `urllib.parse.urlparse` model

Only the fields the source reads are produced: `netloc` (for
`.hostname`), `path` and `query`.  IPv6 bracket hosts are not modelled.
The splitting order follows CPython's `urlsplit`: scheme, then netloc,
then fragment, then query; `urlparse` additionally separates `;params`
from the last path segment. -/

/-- Characters allowed in a URL scheme. -/
def isSchemeC (c : Char) : Bool :=
  let n := c.toNat
  (48 ≤ n && n ≤ 57) || (65 ≤ n && n ≤ 90) || (97 ≤ n && n ≤ 122) ||
  c = '+' || c = '-' || c = '.'

/-- ASCII letter test (CPython requires the scheme to start with one). -/
def isAlphaC (c : Char) : Bool :=
  let n := c.toNat
  (65 ≤ n && n ≤ 90) || (97 ≤ n && n ≤ 122)

/-- Drop a leading `scheme:` when the text before the first `:` is a
well-formed scheme. -/
def schemeStrip (cs : List Char) : List Char :=
  match splitFirst ':' cs with
  | none => cs
  | some (a, b) =>
    match a with
    | [] => cs
    | c :: _ => if isAlphaC c && a.all isSchemeC then b else cs

structure UrlParts where
  netloc : List Char
  path : List Char
  query : List Char

/-- Separate `;params` from the last path segment (CPython
`_splitparams`). -/
def paramsSplit (p : List Char) : List Char :=
  let lastSeg := (p.reverse.takeWhile (fun c => c ≠ '/')).reverse
  let pre := p.take (p.length - lastSeg.length)
  match splitFirst ';' lastSeg with
  | none => p
  | some (a, _) => pre ++ a

/-- The `urlparse` model. -/
def urlParts (cs : List Char) : UrlParts :=
  let cs1 := schemeStrip cs
  let hasNetloc := ['/', '/'].isPrefixOf cs1
  let rest0 := if hasNetloc then cs1.drop 2 else cs1
  let netloc := if hasNetloc then rest0.takeWhile (fun c => c ≠ '/' && c ≠ '?' && c ≠ '#') else []
  let rest1 := if hasNetloc then rest0.dropWhile (fun c => c ≠ '/' && c ≠ '?' && c ≠ '#') else rest0
  let beforeFrag := match splitFirst '#' rest1 with
    | none => rest1
    | some (a, _) => a
  let (rawPath, query) := match splitFirst '?' beforeFrag with
    | none => (beforeFrag, ([] : List Char))
    | some (a, b) => (a, b)
  ⟨netloc, paramsSplit rawPath, query⟩

/-- `urlparse(url).hostname or ""` followed by `.lower()`: the part of
the netloc after the last `@` and before the first `:`, lowercased. -/
def hostnameOf (cs : List Char) : List Char :=
  let hostinfo := ((urlParts cs).netloc.reverse.takeWhile (fun c => c ≠ '@')).reverse
  pyLower (hostinfo.takeWhile (fun c => c ≠ ':'))

/-! ## Text Sanitizer and Road-Name Heuristic (`limpar_texto`, `eh_provavel_via`) -/

/-- `unicodedata.normalize("NFKC", ·)`, modelled as the identity: NFKC
is the identity on the ASCII and Latin-1 letters the claims exercise
(compatibility characters such as `™` are outside the model). -/
def nfkc (cs : List Char) : List Char := cs

/-- Core of `limpar_texto` on character lists. -/
def limparCore (cs : List Char) : List Char :=
  if cs = [] then cs
  else
    let s := pyStrip (nfkc (replacePlus cs))
    let s := s.filter (fun c => !isCcCfCs c)
    let s := s.map (fun c => if c = '\r' || c = '\n' || c = '\t' then ' ' else c)
    let s := collapseSpaces s
    let s := s.filter (fun c => !(c = '™' || c = '®' || c = '©'))
    pyStrip s

/-- `limpar_texto`: CSV-safe normalization of a text. -/
def limpar_texto (s : String) : String := ⟨limparCore s.data⟩

/-- `PALAVRAS_CHAVE_VIA` keyword tuple. -/
def PALAVRAS_CHAVE_VIA : List String :=
  ["rodovia", "estrada", "avenida", "rua", "acesso", "br-", "br ",
   "alça", "linha", "viaduto", "trevo", "marginal", "r.", "av.", "km "]

/-- Core of `eh_provavel_via` on character lists. -/
def ehViaCore (cs : List Char) : Bool :=
  let s := pyLower (pyStrip cs)
  PALAVRAS_CHAVE_VIA.any (fun k => containsSub k.data s)

/-- `eh_provavel_via`: heuristic road-name classifier. -/
def eh_provavel_via (nome : String) : Bool := ehViaCore nome.data

/-! ## Host whitelist and Redirect Resolver -/

/-- `HOSTS_PERMITIDOS` (a Python `set`; only membership is used, so a
list is an adequate model). -/
def HOSTS_PERMITIDOS : List String :=
  ["maps.app.goo.gl", "www.google.com", "google.com",
   "www.google.com.br", "google.com.br", "maps.google.com"]

/-- `_host_permitido`: the host of `url` equals a whitelisted host or is
a subdomain of one. -/
def host_permitido (url : String) : Bool :=
  let host := hostnameOf url.data
  HOSTS_PERMITIDOS.any (fun p => host = p.data || List.isSuffixOf ('.' :: p.data) host)

/-! ## Number literals captured by the coordinate regexes

A capture of `-?\d+(?:\.\d+)?` is recorded as sign, integer digits and
fraction digits (`fp = []` meaning the fraction part is absent).  The
captured group text is recovered by `numRender`; Python's
`float(m.group(i))` is `pyFloat (numRender n)`. -/

structure NumLit where
  neg : Bool
  ip : List Char
  fp : List Char
deriving DecidableEq

/-- The text of the captured group. -/
def numRender (n : NumLit) : List Char :=
  (if n.neg then ['-'] else []) ++ n.ip ++ (if n.fp = [] then [] else '.' :: n.fp)

/-- Well-formedness of a capture: at least one integer digit, digits
everywhere (every capture produced by the scanners satisfies this). -/
def validNum (n : NumLit) : Bool :=
  !(n.ip = []) && n.ip.all isDigitC && n.fp.all isDigitC

/-- Numeric value of a digit string. -/
def digitsNat (ds : List Char) : Nat :=
  ds.foldl (fun a c => 10 * a + (c.toNat - 48)) 0

/-- Exact value of a signed decimal `±ds.fs` as a rational. -/
def floatVal (neg : Bool) (ds fs : List Char) : ℚ :=
  mkRat (if neg then -(digitsNat (ds ++ fs) : Int) else (digitsNat (ds ++ fs) : Int))
    (10 ^ fs.length)

/-- Exact value of a captured literal. -/
def numVal (n : NumLit) : ℚ := floatVal n.neg n.ip n.fp

/-- Python `float(s)` past the optional sign: accepts `d+`, `d+.d*` and
`d*.d+`, rejecting everything else. -/
def floatAfterSign (neg : Bool) (cs1 : List Char) : Option ℚ :=
  match cs1.dropWhile isDigitC with
  | [] =>
    if cs1.takeWhile isDigitC = [] then none
    else some (floatVal neg (cs1.takeWhile isDigitC) [])
  | '.' :: r2 =>
    if r2.dropWhile isDigitC = [] then
      if cs1.takeWhile isDigitC = [] && r2.takeWhile isDigitC = [] then none
      else some (floatVal neg (cs1.takeWhile isDigitC) (r2.takeWhile isDigitC))
    else none
  | _ => none

/-- Python `float(s)` on decimal literals: optional surrounding
whitespace, optional sign, then a decimal number (the exponent,
underscore and inf/nan forms accepted by `float` cannot be produced by
the regex captures this model applies it to, and are not modelled). -/
def pyFloat (cs : List Char) : Option ℚ :=
  match pyStrip cs with
  | '-' :: t => floatAfterSign true t
  | '+' :: t => floatAfterSign false t
  | t => floatAfterSign false t

/-! ## The scanners for the three coordinate patterns -/

/-- Greedy deterministic matcher for `-?\d+(?:\.\d+)?` anchored at the
head of the input; returns the capture and the unconsumed rest.  The
regex is deterministic here: the quantifiers are over digit classes and
every continuation of the surrounding patterns starts with a non-digit,
so greedy matching is the only possible match. -/
def numAfterSign (neg : Bool) (cs1 : List Char) : Option (NumLit × List Char) :=
  if cs1.takeWhile isDigitC = [] then none
  else
    match cs1.dropWhile isDigitC with
    | '.' :: r2 =>
      if r2.takeWhile isDigitC = [] then some (⟨neg, cs1.takeWhile isDigitC, []⟩, cs1.dropWhile isDigitC)
      else some (⟨neg, cs1.takeWhile isDigitC, r2.takeWhile isDigitC⟩, r2.dropWhile isDigitC)
    | r => some (⟨neg, cs1.takeWhile isDigitC, []⟩, r)

/-- Dispatch on the optional leading `-` (the regex has `-?`; `+` is
not accepted by these patterns). -/
def matchNum (cs : List Char) : Option (NumLit × List Char) :=
  match cs with
  | '-' :: t => numAfterSign true t
  | _ => numAfterSign false cs

/-- One attempt of `(-?\d+(?:\.\d+)?),\s*(-?\d+(?:\.\d+)?)` anchored at
the head of the input. -/
def pairTry (cs : List Char) : Option (NumLit × NumLit) :=
  match matchNum cs with
  | none => none
  | some (n1, r1) =>
    match r1 with
    | ',' :: r2 =>
      match matchNum (r2.dropWhile isPySpace) with
      | none => none
      | some (n2, _) => some (n1, n2)
    | _ => none

/-- `PADRAO_LATLON_ARROBA.search`: leftmost occurrence of
`@(-?\d+(?:\.\d+)?),\s*(-?\d+(?:\.\d+)?)`. -/
def arrobaSearch : List Char → Option (NumLit × NumLit)
  | [] => none
  | c :: t =>
    if c = '@' then
      match pairTry t with
      | some r => some r
      | none => arrobaSearch t
    else arrobaSearch t

/-- `re.search(r"(-?\d+(?:\.\d+)?),\s*(-?\d+(?:\.\d+)?)", s)` (used on
`q=`/`query=` parameter values). -/
def pairSearch : List Char → Option (NumLit × NumLit)
  | [] => none
  | c :: t =>
    match pairTry (c :: t) with
    | some r => some r
    | none => pairSearch t

/-- `PADRAO_LAT_3D.search`: leftmost occurrence of `!3d(-?\d+(?:\.\d+)?)`. -/
def threeDSearch : List Char → Option NumLit
  | [] => none
  | c :: t =>
    if c = '!' then
      match t with
      | '3' :: 'd' :: t2 =>
        match matchNum t2 with
        | some (n, _) => some n
        | none => threeDSearch t
      | _ => threeDSearch t
    else threeDSearch t

/-- `PADRAO_LON_4D.search`: leftmost occurrence of `!4d(-?\d+(?:\.\d+)?)`. -/
def fourDSearch : List Char → Option NumLit
  | [] => none
  | c :: t =>
    if c = '!' then
      match t with
      | '4' :: 'd' :: t2 =>
        match matchNum t2 with
        | some (n, _) => some n
        | none => fourDSearch t
      | _ => fourDSearch t
    else fourDSearch t

/-! ## Query-string parsing (`urllib.parse.parse_qs`) -/

/-- `parse_qsl` with default options: split on `&`, skip pieces without
`=` and pairs with an empty value, `unquote_plus` names and values. -/
def parseQsl (q : List Char) : List (List Char × List Char) :=
  (splitOnC '&' q).filterMap (fun nv =>
    if nv = [] then none
    else
      match splitFirst '=' nv with
      | none => none
      | some (n, v) =>
        if v = [] then none
        else some (unquote (replacePlus n), unquote (replacePlus v)))

/-- The list `parse_qs(query)[key]` (empty when the key is absent). -/
def qValues (pairs : List (List Char × List Char)) (key : List Char) : List (List Char) :=
  pairs.filterMap (fun p => if p.1 = key then some p.2 else none)

/-- `params.get("q") or params.get("query") or []`. -/
def qCandidates (q : List Char) : List (List Char) :=
  let pairs := parseQsl q
  let qs := qValues pairs "q".data
  if qs = [] then qValues pairs "query".data else qs

/-- Pattern 3 of the coordinate extractor: the first `q=`/`query=`
value containing a `lat,lon` substring. -/
def qExtract (cs : List Char) : Option (NumLit × NumLit) :=
  (qCandidates (urlParts cs).query).findSome? pairSearch

/-! ## Coordinate Extractor (`extrair_lat_lon`) -/

/-- `float(m.group(1)), float(m.group(2))` on a matched pair; `.error`
models a `ValueError` escaping `extrair_lat_lon` (the function has no
`try` of its own). -/
def floatPair (n1 n2 : NumLit) : Except Unit (Option ℚ × Option ℚ) :=
  match pyFloat (numRender n1), pyFloat (numRender n2) with
  | some a, some b => .ok (some a, some b)
  | _, _ => .error ()

/-- `extrair_lat_lon` on character lists: the three URL coordinate
patterns in strict priority order. -/
def extrairCore (cs : List Char) : Except Unit (Option ℚ × Option ℚ) :=
  match arrobaSearch cs with
  | some (n1, n2) => floatPair n1 n2
  | none =>
    match threeDSearch cs, fourDSearch cs with
    | some n1, some n2 => floatPair n1 n2
    | _, _ =>
      match qExtract cs with
      | some (n1, n2) => floatPair n1 n2
      | none => .ok (none, none)

/-- `extrair_lat_lon(url_final)`. -/
def extrair_lat_lon (url : String) : Except Unit (Option ℚ × Option ℚ) :=
  extrairCore url.data

/-! ## URL Name Extractor (`extrair_nome_da_url`) -/

/-- The nonempty segments of `urlparse(url).path`. -/
def pathParts (cs : List Char) : List (List Char) :=
  (splitOnC '/' (urlParts cs).path).filter (fun p => !(p = []))

/-- `re.match(r"-?\d+(\.\d+)?,\s*-?\d+(\.\d+)?", nome)`: the pair
pattern anchored at the start of the candidate name. -/
def coordPrefix (cs : List Char) : Bool := (pairTry cs).isSome

/-- The `for i, p in enumerate(partes)` loop of `extrair_nome_da_url`:
at each segment equal to `place` with a successor, the successor is
unquoted and sanitized; empty, coordinate-like and road-like candidates
are skipped (`continue`) and the scan proceeds with later segments. -/
def placeLoop : List (List Char) → Option (List Char)
  | [] => none
  | [_] => none
  | p :: nxt :: rest =>
    if p = "place".data then
      if limparCore (unquote nxt) = [] then placeLoop (nxt :: rest)
      else if coordPrefix (limparCore (unquote nxt)) then placeLoop (nxt :: rest)
      else if ehViaCore (limparCore (unquote nxt)) then placeLoop (nxt :: rest)
      else some (limparCore (unquote nxt))
    else placeLoop (nxt :: rest)

/-- `extrair_nome_da_url`. -/
def extrair_nome_da_url (url : String) : Option String :=
  (placeLoop (pathParts url.data)).map (fun l => (⟨l⟩ : String))

/-! ## Network oracle and upstream-response models -/

/-- The fields of a Nominatim `jsonv2` response read by
`geocodificar_reverso`. -/
structure NomResp where
  namedetails_name : Option String
  name : Option String
  display_name : Option String
  category : Option String
  cls : Option String
  typ : Option String

/-- One element of an Overpass response: the `tags` object plus the
top-level `type`, `lat`/`lon` and `center` fields read by
`buscar_poi_proximo`. -/
structure OverpassElem where
  tags : List (String × String)
  typ : String
  lat : Option ℚ
  lon : Option ℚ
  center : Option (Option ℚ × Option ℚ)

/-- Oracle for all HTTP traffic.  A `none` answer models "an exception
was raised or a non-success status was returned"; a `some` answer is
the final URL (redirect following) or the decoded JSON payload. -/
structure Net where
  head : String → Option String
  get : String → Option String
  nominatim : ℚ → ℚ → Option NomResp
  overpass : ℚ → ℚ → ℕ → Option (List OverpassElem)

/-- Python truthiness of an optional string (`None` and `""` are falsy). -/
def pyTruthy : Option String → Bool
  | none => false
  | some s => decide (¬s = "")

/-- Python `a or b` on optional strings. -/
def pyOr (a b : Option String) : Option String :=
  if pyTruthy a then a else b

/-! ## Redirect Resolver (`seguir_redirecionamento_seguro`) -/

/-- `seguir_redirecionamento_seguro`: HEAD with redirects, falling back
to GET, returning the original URL when the final host is not
whitelisted or when both requests fail. -/
def seguir_redirecionamento_seguro (net : Net) (url_inicial : String) : String :=
  match net.head url_inicial with
  | some url_final => if host_permitido url_final then url_final else url_inicial
  | none =>
    match net.get url_inicial with
    | some url_final => if host_permitido url_final then url_final else url_inicial
    | none => url_inicial

/-! ## Reverse Geocoder (`geocodificar_reverso`) -/

/-- `geocodificar_reverso`: name preference chain, sanitization, and
the `category:type` tag. -/
def geocodificar_reverso (net : Net) (lat lon : ℚ) : Option String × Option String :=
  match net.nominatim lat lon with
  | none => (none, none)
  | some d =>
    let nome0 := pyOr (pyOr d.namedetails_name d.name) d.display_name
    let nome := limpar_texto (if pyTruthy nome0 then nome0.getD "" else "")
    let classe := pyOr d.category d.cls
    let classe_tipo : Option String :=
      if pyTruthy classe && pyTruthy d.typ then
        some (classe.getD "" ++ ":" ++ d.typ.getD "")
      else pyOr classe d.typ
    (if nome = "" then none else some nome, classe_tipo)

/-! ## Nearby-POI Searcher (`buscar_poi_proximo`) -/

/-- Stable insertion of one candidate into a distance-sorted list. -/
def insortDist (x : ℚ × List Char) : List (ℚ × List Char) → List (ℚ × List Char)
  | [] => [x]
  | y :: t => if x.1 ≤ y.1 then x :: y :: t else y :: insortDist x t

/-- `candidatos.sort(key=lambda x: x[0])`: stable ascending sort by
distance (Python's sort is stable; equal keys keep encounter order). -/
def sortDist : List (ℚ × List Char) → List (ℚ × List Char)
  | [] => []
  | x :: t => insortDist x (sortDist t)

/-- The candidate produced from one Overpass element: named, not tagged
or heuristically classified as a road, with a representative
coordinate. -/
def poiCandidate (dist : ℚ → ℚ → ℚ → ℚ → ℚ) (lat lon : ℚ) (e : OverpassElem) :
    Option (ℚ × List Char) :=
  match e.tags.lookup "name" with
  | none => none
  | some raw =>
    if raw = "" then none
    else
      let nome := limparCore raw.data
      if (e.tags.lookup "highway").isSome || ehViaCore nome then none
      else
        let coords := if e.typ = "node" then (e.lat, e.lon) else e.center.getD (none, none)
        match coords with
        | (some la2, some lo2) => some (dist lat lon la2 lo2, nome)
        | _ => none

/-- `buscar_poi_proximo`: closest qualifying named POI within the
radius.  `dist` abstracts `_haversine_metros` (float transcendental
arithmetic; it only ranks the candidates). -/
def buscar_poi_proximo (dist : ℚ → ℚ → ℚ → ℚ → ℚ) (net : Net) (lat lon : ℚ)
    (raio_metros : ℕ) : Option String :=
  match net.overpass lat lon raio_metros with
  | none => none
  | some elements =>
    let candidatos := elements.filterMap (poiCandidate dist lat lon)
    if candidatos = [] then none
    else some ⟨((sortDist candidatos).headD (0, [])).2⟩

/-! ## Name Resolver (`resolver_nome_final`) -/

/-- `resolver_nome_final`: URL name, then Nominatim (with POI override
for `highway:*` tags), then POI, then fallback. -/
def resolver_nome_final (dist : ℚ → ℚ → ℚ → ℚ → ℚ) (net : Net)
    (lat lon : Option ℚ) (nome_url : Option String) : String :=
  if pyTruthy nome_url && !eh_provavel_via (nome_url.getD "") then nome_url.getD ""
  else
    match lat, lon with
    | some la, some lo =>
      if pyTruthy (geocodificar_reverso net la lo).1 &&
          !eh_provavel_via ((geocodificar_reverso net la lo).1.getD "") then
        if pyTruthy (geocodificar_reverso net la lo).2 &&
            "highway".data.isPrefixOf ((geocodificar_reverso net la lo).2.getD "").data then
          if pyTruthy (buscar_poi_proximo dist net la lo 120) then
            (buscar_poi_proximo dist net la lo 120).getD ""
          else (geocodificar_reverso net la lo).1.getD ""
        else (geocodificar_reverso net la lo).1.getD ""
      else
        if pyTruthy (buscar_poi_proximo dist net la lo 120) then
          (buscar_poi_proximo dist net la lo 120).getD ""
        else if pyTruthy (geocodificar_reverso net la lo).1 then
          (geocodificar_reverso net la lo).1.getD ""
        else "(indisponível)"
    | _, _ => "(indisponível)"

/-! ## Link Processor (`processar_link`) -/

/-- The `Resultado` dataclass. -/
structure Resultado where
  lugar : String
  lat : Option ℚ
  lon : Option ℚ
  link : String
deriving DecidableEq

/-- `processar_link`: redirect, coordinates, URL name, final name; a
propagated exception (modelled: a `ValueError` from `float`) is caught
and converted to the sentinel Result. -/
def processar_link (dist : ℚ → ℚ → ℚ → ℚ → ℚ) (net : Net) (link : String) : Resultado :=
  match extrair_lat_lon (seguir_redirecionamento_seguro net link) with
  | .error _ => ⟨"(indisponível)", none, none, link⟩
  | .ok (lat, lon) =>
    ⟨resolver_nome_final dist net lat lon
        (extrair_nome_da_url (seguir_redirecionamento_seguro net link)),
      lat, lon, link⟩

/-! ## Derived definitions used by the verification -/

/-- A Result place name is acceptable when it contains a character that
is not whitespace (hence is neither empty nor whitespace-only). -/
def goodName (s : String) : Bool := s.data.any (fun c => !isPySpace c)

/-- Every name an oracle-driven component can hand to the Name Resolver
is an output of the sanitizer. -/
def FromLimpar (o : Option String) : Prop :=
  ∀ s, o = some s → ∃ raw, s.data = limparCore raw

/-- Decidable equality for `Except` results (used to evaluate the
coordinate extractor on concrete URLs). -/
instance {e a : Type} [DecidableEq e] [DecidableEq a] : DecidableEq (Except e a) := fun x y =>
  match x, y with
  | .ok v, .ok w => if h : v = w then isTrue (by rw [h]) else isFalse (by simp [h])
  | .error v, .error w => if h : v = w then isTrue (by rw [h]) else isFalse (by simp [h])
  | .ok _, .error _ => isFalse (by simp)
  | .error _, .ok _ => isFalse (by simp)

/-- Boundary condition after a number capture: the next character (if
any) is neither a digit nor a dot, so the greedy capture cannot extend
into the continuation. -/
def hardB (r : List Char) : Bool :=
  match r with
  | [] => true
  | c :: _ => !isDigitC c && !(c = '.')

/-- String-level boundary condition. -/
def hardBS (s : String) : Bool := hardB s.data

/-- The segments that follow a segment literally equal to `place`, in
path order (specification-level reformulation of the extractor loop). -/
def placeCandidates (ps : List (List Char)) : List (List Char) :=
  (ps.zip ps.tail).filterMap (fun ab => if ab.1 = "place".data then some ab.2 else none)

/-- Acceptance test of one sanitized place candidate. -/
def placeAccept (nome : List Char) : Bool :=
  !(nome = []) && !coordPrefix nome && !ehViaCore nome

/-- A degenerate stand-in for the haversine distance (concrete runs of
the model; the claims hold for every `dist`). -/
def dist0 : ℚ → ℚ → ℚ → ℚ → ℚ := fun _ _ _ _ => 0

/-- The silent network: every request fails. -/
def netNone : Net := ⟨fun _ => none, fun _ => none, fun _ _ => none, fun _ _ _ => none⟩

/-- An Overpass response holding one node whose name sanitizes to the
empty string. -/
def netPlusPoi : Net :=
  { netNone with overpass := fun _ _ _ => some [⟨[("name", "+")], "node", some 1, some 2, none⟩] }

/-- A Nominatim answer classified `highway:residential` together with an
Overpass answer naming a bakery. -/
def netHighwayPadaria : Net :=
  { netNone with
    nominatim := fun _ _ =>
      some ⟨some "Travessia Bela", none, none, some "highway", none, some "residential"⟩,
    overpass := fun _ _ _ =>
      some [⟨[("name", "Padaria Central")], "node", some 1, some 2, none⟩] }

/-- A redirector that lands on a non-whitelisted host whose URL carries
valid coordinates. -/
def netEvil : Net :=
  { netNone with head := fun _ => some "https://evil.example.com/@12.34,-56.78" }

/-! ## Helper lemmas: scanning and stripping -/

theorem takeWhile_app {p : Char → Bool} {a : List Char} (b : List Char)
    (h : ∀ c ∈ a, p c = true) : (a ++ b).takeWhile p = a ++ b.takeWhile p := by
  induction a with
  | nil => simp
  | cons x t ih =>
    simp only [List.cons_append, List.takeWhile_cons, h x (by simp), if_true]
    rw [ih (fun c hc => h c (by simp [hc]))]

theorem dropWhile_app {p : Char → Bool} {a : List Char} (b : List Char)
    (h : ∀ c ∈ a, p c = true) : (a ++ b).dropWhile p = b.dropWhile p := by
  induction a with
  | nil => simp
  | cons x t ih =>
    simp only [List.cons_append, List.dropWhile_cons, h x (by simp), if_true]
    exact ih (fun c hc => h c (by simp [hc]))

theorem dropWhile_headD_false {p : Char → Bool} {l : List Char} (d : Char)
    (h : l.dropWhile p ≠ []) : p ((l.dropWhile p).headD d) = false := by
  induction l with
  | nil => simp at h
  | cons x t ih =>
    by_cases hx : p x = true
    · rw [List.dropWhile_cons, if_pos hx] at h ⊢
      exact ih h
    · rw [List.dropWhile_cons, if_neg hx]
      simpa using (Bool.not_eq_true _).mp hx

theorem headD_append {l t : List Char} (d : Char) (h : l ≠ []) :
    (l ++ t).headD d = l.headD d := by
  cases l with
  | nil => exact absurd rfl h
  | cons x xs => rfl

theorem headD_mem {α : Type} {l : List α} (d : α) (h : l ≠ []) : l.headD d ∈ l := by
  cases l with
  | nil => exact absurd rfl h
  | cons x xs => simp

/-- The right-stripped list is a prefix of the input. -/
theorem rstrip_append (p : Char → Bool) (l : List Char) :
    ∃ t, (l.reverse.dropWhile p).reverse ++ t = l := by
  refine ⟨(l.reverse.takeWhile p).reverse, ?_⟩
  rw [← List.reverse_append, List.takeWhile_append_dropWhile, List.reverse_reverse]

/-- A nonempty `strip` result contains a non-whitespace character. -/
theorem pyStrip_good (l : List Char) :
    pyStrip l = [] ∨ (pyStrip l).any (fun c => !isPySpace c) = true := by
  by_cases hres : pyStrip l = []
  · exact Or.inl hres
  · refine Or.inr ?_
    unfold pyStrip at hres ⊢
    set l1 := l.dropWhile isPySpace with hl1
    obtain ⟨t, ht⟩ := rstrip_append isPySpace l1
    have hne : (l1.reverse.dropWhile isPySpace).reverse ≠ [] := hres
    have hl1ne : l1 ≠ [] := by
      intro h0
      rw [h0] at hne
      simp at hne
    have hhead : ((l1.reverse.dropWhile isPySpace).reverse).headD 'x' = l1.headD 'x' := by
      conv_rhs => rw [← ht]
      exact (headD_append 'x' hne).symm
    have hns : isPySpace (l1.headD 'x') = false := dropWhile_headD_false 'x' hl1ne
    refine List.any_eq_true.mpr ⟨((l1.reverse.dropWhile isPySpace).reverse).headD 'x',
      headD_mem 'x' hne, ?_⟩
    rw [hhead, hns]
    rfl

theorem limparCore_good (l : List Char) :
    limparCore l = [] ∨ (limparCore l).any (fun c => !isPySpace c) = true := by
  unfold limparCore
  by_cases h : l = []
  · simp [h]
  · simp only [h, if_false]
    exact pyStrip_good _

theorem limparCore_goodName {l s : List Char} (h : s = limparCore l) (hne : s ≠ []) :
    goodName ⟨s⟩ = true := by
  rcases limparCore_good l with h0 | h0
  · exact absurd (h.trans h0) hne
  · simpa [goodName, h] using h0

/-! ## Helper lemmas: provenance of candidate names -/

theorem fromLimpar_good {o : Option String} (hf : FromLimpar o)
    (ht : pyTruthy o = true) : goodName (o.getD "") = true := by
  cases o with
  | none => simp [pyTruthy] at ht
  | some s =>
    obtain ⟨raw, hraw⟩ := hf s rfl
    have hne : s ≠ "" := by
      intro h0
      rw [h0] at ht
      simp [pyTruthy] at ht
    have hdata : s.data ≠ [] := by
      intro h0
      exact hne (by cases s with | mk l => exact congrArg String.mk (by simpa using h0))
    have := limparCore_goodName hraw hdata
    cases s with
    | mk l => simpa [goodName] using this

theorem insortDist_perm (x : ℚ × List Char) (l : List (ℚ × List Char)) :
    (insortDist x l).Perm (x :: l) := by
  induction l with
  | nil => exact List.Perm.refl _
  | cons y t ih =>
    unfold insortDist
    by_cases h : x.1 ≤ y.1
    · simp only [h, if_true]
      exact List.Perm.refl _
    · simp only [h, if_false]
      exact (List.Perm.cons y ih).trans (List.Perm.swap x y t)

theorem sortDist_perm (l : List (ℚ × List Char)) : (sortDist l).Perm l := by
  induction l with
  | nil => exact List.Perm.refl _
  | cons x t ih =>
    exact (insortDist_perm x (sortDist t)).trans (List.Perm.cons x ih)

/-- The name of a POI candidate is an output of the sanitizer. -/
theorem poiCandidate_shape {dist : ℚ → ℚ → ℚ → ℚ → ℚ} {lat lon : ℚ}
    {e : OverpassElem} {c : ℚ × List Char} (h : poiCandidate dist lat lon e = some c) :
    ∃ raw, c.2 = limparCore raw := by
  unfold poiCandidate at h
  dsimp only at h
  repeat' split at h
  all_goals cases h
  all_goals exact ⟨_, rfl⟩

theorem buscar_fromLimpar (dist : ℚ → ℚ → ℚ → ℚ → ℚ) (net : Net) (lat lon : ℚ)
    (raio : ℕ) : FromLimpar (buscar_poi_proximo dist net lat lon raio) := by
  intro s hs
  rcases ho : net.overpass lat lon raio with _ | elements
  · simp only [buscar_poi_proximo, ho] at hs
    exact absurd hs (by simp)
  · simp only [buscar_poi_proximo, ho] at hs
    by_cases hne : elements.filterMap (poiCandidate dist lat lon) = []
    · rw [if_pos hne] at hs
      exact absurd hs (by simp)
    · rw [if_neg hne] at hs
      have hs2 : s =
          (⟨((sortDist (elements.filterMap (poiCandidate dist lat lon))).headD (0, [])).2⟩ :
            String) :=
        (Option.some.inj hs).symm
      have hsne : sortDist (elements.filterMap (poiCandidate dist lat lon)) ≠ [] := by
        intro h0
        have hlen := (sortDist_perm (elements.filterMap (poiCandidate dist lat lon))).length_eq
        rw [h0] at hlen
        exact hne (List.length_eq_zero.mp hlen.symm)
      have hmem := ((sortDist_perm _).mem_iff).mp (headD_mem (0, ([] : List Char)) hsne)
      obtain ⟨e, _, hpe⟩ := List.mem_filterMap.mp hmem
      obtain ⟨raw, hraw⟩ := poiCandidate_shape hpe
      rw [hs2]
      exact ⟨raw, hraw⟩

theorem geocode_fromLimpar (net : Net) (lat lon : ℚ) :
    FromLimpar (geocodificar_reverso net lat lon).1 := by
  intro s hs
  unfold geocodificar_reverso at hs
  rcases ho : net.nominatim lat lon with _ | d
  · rw [ho] at hs
    exact absurd hs (by simp)
  · rw [ho] at hs
    simp only at hs
    set base := (if pyTruthy (pyOr (pyOr d.namedetails_name d.name) d.display_name) then
      (pyOr (pyOr d.namedetails_name d.name) d.display_name).getD "" else "") with hbase
    by_cases hb : limpar_texto base = ""
    · simp [hb] at hs
    · simp only [hb, if_false] at hs
      refine ⟨base.data, ?_⟩
      have : s = limpar_texto base := by simpa using hs.symm
      rw [this]
      rfl

/-- A name returned by the URL Name Extractor is a nonempty sanitizer
output. -/
theorem placeLoop_shape {ps : List (List Char)} {l : List Char}
    (h : placeLoop ps = some l) : (∃ raw, l = limparCore raw) ∧ l ≠ [] := by
  induction ps with
  | nil => simp [placeLoop] at h
  | cons p rest ih =>
    cases rest with
    | nil => simp [placeLoop] at h
    | cons nxt t =>
      unfold placeLoop at h
      by_cases hp : p = "place".data
      · rw [if_pos hp] at h
        by_cases h1 : limparCore (unquote nxt) = []
        · rw [if_pos h1] at h
          exact ih h
        · rw [if_neg h1] at h
          by_cases h2 : coordPrefix (limparCore (unquote nxt)) = true
          · rw [if_pos h2] at h
            exact ih h
          · rw [if_neg h2] at h
            by_cases h3 : ehViaCore (limparCore (unquote nxt)) = true
            · rw [if_pos h3] at h
              exact ih h
            · rw [if_neg h3] at h
              have hl : l = limparCore (unquote nxt) := (Option.some.inj h).symm
              exact ⟨⟨unquote nxt, hl⟩, hl ▸ h1⟩
      · rw [if_neg hp] at h
        exact ih h

theorem extrair_nome_fromLimpar (url : String) : FromLimpar (extrair_nome_da_url url) := by
  intro s hs
  unfold extrair_nome_da_url at hs
  rcases hp : placeLoop (pathParts url.data) with _ | l
  · rw [hp] at hs
    exact absurd hs (by simp)
  · rw [hp] at hs
    obtain ⟨⟨raw, hraw⟩, _⟩ := placeLoop_shape hp
    have : s = (⟨l⟩ : String) := by simpa using hs.symm
    rw [this]
    exact ⟨raw, hraw⟩

/-- Every outcome of the Name Resolver contains a non-whitespace
character, provided the URL-derived name (when present) came from the
sanitizer — which `extrair_nome_da_url` guarantees. -/
theorem resolver_good (dist : ℚ → ℚ → ℚ → ℚ → ℚ) (net : Net)
    (lat lon : Option ℚ) (nu : Option String) (hnu : FromLimpar nu) :
    goodName (resolver_nome_final dist net lat lon nu) = true := by
  unfold resolver_nome_final
  repeat' split
  all_goals first
    | decide
    | exact fromLimpar_good hnu (by simp_all)
    | exact fromLimpar_good (buscar_fromLimpar dist net _ _ 120) (by simp_all)
    | exact fromLimpar_good (geocode_fromLimpar net _ _) (by simp_all)

/-! ## Claim C1 -/

/-- C1 (amended): for every input link and every behaviour of the
network, the place name in the final Result of the Link Processor is
never the empty string and never whitespace-only — it contains a
non-whitespace character; the sentinel fills the failure cases.  (The
claim's further assertion that `buscar_poi_proximo` never supplies an
empty name is refuted separately: the invariant holds because
`resolver_nome_final` discards falsy POI names, not because the POI
searcher cannot produce an empty one.) -/
theorem C1_final_name_never_blank (dist : ℚ → ℚ → ℚ → ℚ → ℚ) (net : Net) (link : String) :
    goodName (processar_link dist net link).lugar = true := by
  unfold processar_link
  split
  · show goodName "(indisponível)" = true
    decide
  · exact resolver_good dist net _ _ _ (extrair_nome_fromLimpar _)

/-- C1 counterexample: an Overpass node named `"+"` is accepted as a
candidate, its name sanitizes to the empty string, and
`buscar_poi_proximo` returns that empty name — so the Nearby-POI
Searcher can supply an empty name to `resolver_nome_final`, contrary to
the claim. -/
theorem C1_poi_empty_name_counterexample :
    buscar_poi_proximo dist0 netPlusPoi 1 2 120 = some "" := by decide

/-! ## Claim C2 -/

/-- The Name Resolver at present coordinates, with the `lat`/`lon`
match resolved (definitional unfolding used by several proofs). -/
theorem resolver_some (dist : ℚ → ℚ → ℚ → ℚ → ℚ) (net : Net) (la lo : ℚ)
    (nu : Option String) :
    resolver_nome_final dist net (some la) (some lo) nu =
      if pyTruthy nu && !eh_provavel_via (nu.getD "") then nu.getD ""
      else
        if pyTruthy (geocodificar_reverso net la lo).1 &&
            !eh_provavel_via ((geocodificar_reverso net la lo).1.getD "") then
          if pyTruthy (geocodificar_reverso net la lo).2 &&
              "highway".data.isPrefixOf ((geocodificar_reverso net la lo).2.getD "").data then
            if pyTruthy (buscar_poi_proximo dist net la lo 120) then
              (buscar_poi_proximo dist net la lo 120).getD ""
            else (geocodificar_reverso net la lo).1.getD ""
          else (geocodificar_reverso net la lo).1.getD ""
        else
          if pyTruthy (buscar_poi_proximo dist net la lo 120) then
            (buscar_poi_proximo dist net la lo 120).getD ""
          else if pyTruthy (geocodificar_reverso net la lo).1 then
            (geocodificar_reverso net la lo).1.getD ""
          else "(indisponível)" := rfl

/-- C2: for every optional coordinate pair and every URL-derived name
that is nonempty and not road-like, `resolver_nome_final` returns that
name unchanged, and the result does not depend on the network oracle or
the distance function — neither the Reverse Geocoder nor the Nearby-POI
Searcher can influence this path. -/
theorem C2_url_name_wins (dist : ℚ → ℚ → ℚ → ℚ → ℚ) (net : Net)
    (lat lon : Option ℚ) (s : String) (hne : s ≠ "") (hvia : eh_provavel_via s = false) :
    resolver_nome_final dist net lat lon (some s) = s ∧
      ∀ (dist2 : ℚ → ℚ → ℚ → ℚ → ℚ) (net2 : Net),
        resolver_nome_final dist2 net2 lat lon (some s) =
          resolver_nome_final dist net lat lon (some s) := by
  have hcond : (pyTruthy (some s) && !eh_provavel_via ((some s).getD "")) = true := by
    simp [pyTruthy, hne, hvia]
  constructor
  · unfold resolver_nome_final
    rw [if_pos hcond]
    rfl
  · intro dist2 net2
    unfold resolver_nome_final
    rw [if_pos hcond, if_pos hcond]

/-- C2 witness at a concrete name with silent collaborators. -/
theorem C2_url_name_wins_witness :
    ¬"Estadio Legal" = "" ∧ eh_provavel_via "Estadio Legal" = false ∧
      resolver_nome_final dist0 netNone none none (some "Estadio Legal") = "Estadio Legal" :=
  ⟨by decide, by decide,
    (C2_url_name_wins dist0 netNone none none "Estadio Legal" (by decide) (by decide)).1⟩

/-! ## Claim C3 -/

/-- C3: when the Reverse Geocoder yields a nonempty non-road-like name
whose category-type tag starts with `highway` and the URL-derived name
does not short-circuit, `resolver_nome_final` returns the POI name when
the Nearby-POI Searcher finds one, and falls back to the geocoded name
when it finds none. -/
theorem C3_highway_prefers_poi (dist : ℚ → ℚ → ℚ → ℚ → ℚ) (net : Net) (la lo : ℚ)
    (nu : Option String) (n ct : String)
    (hnu : (pyTruthy nu && !eh_provavel_via (nu.getD "")) = false)
    (hg : geocodificar_reverso net la lo = (some n, some ct))
    (hn : n ≠ "") (hnv : eh_provavel_via n = false)
    (hct : "highway".data.isPrefixOf ct.data = true) :
    (∀ p : String, buscar_poi_proximo dist net la lo 120 = some p → p ≠ "" →
        resolver_nome_final dist net (some la) (some lo) nu = p) ∧
      (buscar_poi_proximo dist net la lo 120 = none →
        resolver_nome_final dist net (some la) (some lo) nu = n) := by
  have hctne : ct ≠ "" := by
    intro h0
    rw [h0] at hct
    exact absurd hct (by decide)
  constructor
  · intro p hp hpne
    rw [resolver_some, if_neg (by simp [hnu])]
    simp only [hg]
    rw [if_pos (by simp [pyTruthy, hn, hnv]), if_pos (by simp [pyTruthy, hctne, hct]),
      if_pos (by simp [hp, pyTruthy, hpne]), hp]
    rfl
  · intro hp
    rw [resolver_some, if_neg (by simp [hnu])]
    simp only [hg]
    rw [if_pos (by simp [pyTruthy, hn, hnv]), if_pos (by simp [pyTruthy, hctne, hct]),
      if_neg (by simp [hp, pyTruthy])]
    rfl

/-- C3 witness: with a `highway:residential` reverse-geocode answer and
a nearby bakery, the resolver returns "Padaria Central", not the
highway name. -/
theorem C3_highway_prefers_poi_witness :
    geocodificar_reverso netHighwayPadaria 1 2 =
        (some "Travessia Bela", some "highway:residential") ∧
      buscar_poi_proximo dist0 netHighwayPadaria 1 2 120 = some "Padaria Central" ∧
      resolver_nome_final dist0 netHighwayPadaria (some 1) (some 2) none = "Padaria Central" :=
  ⟨by decide, by decide,
    (C3_highway_prefers_poi dist0 netHighwayPadaria 1 2 none "Travessia Bela"
        "highway:residential" (by decide) (by decide) (by decide) (by decide)
        (by decide)).1 "Padaria Central" (by decide) (by decide)⟩

/-! ## Claim C4 -/

/-- Unfolding of `placeCandidates` at two consecutive segments. -/
theorem placeCandidates_cons (p nxt : List Char) (t : List (List Char)) :
    placeCandidates (p :: nxt :: t) =
      (if p = "place".data then [nxt] else []) ++ placeCandidates (nxt :: t) := by
  by_cases hp : p = "place".data <;>
    simp [placeCandidates, hp, List.filterMap_cons]

/-- The extractor loop returns the first accepted candidate among the
successors of every `place` segment. -/
theorem placeLoop_eq_find (ps : List (List Char)) :
    placeLoop ps =
      ((placeCandidates ps).map (fun c => limparCore (unquote c))).find? placeAccept := by
  induction ps with
  | nil => simp [placeLoop, placeCandidates]
  | cons p rest ih =>
    cases rest with
    | nil => simp [placeLoop, placeCandidates]
    | cons nxt t =>
      rw [placeCandidates_cons]
      by_cases hp : p = "place".data
      · rw [if_pos hp]
        unfold placeLoop
        rw [if_pos hp]
        by_cases h1 : limparCore (unquote nxt) = []
        · rw [if_pos h1]
          rw [ih]
          simp [placeAccept, h1, List.find?_cons]
        · rw [if_neg h1]
          by_cases h2 : coordPrefix (limparCore (unquote nxt)) = true
          · rw [if_pos h2]
            rw [ih]
            simp [placeAccept, h1, h2, List.find?_cons]
          · rw [if_neg h2]
            by_cases h3 : ehViaCore (limparCore (unquote nxt)) = true
            · rw [if_pos h3]
              rw [ih]
              simp [placeAccept, h1, h2, h3, List.find?_cons]
            · rw [if_neg h3]
              simp [placeAccept, h1, h2, h3, List.find?_cons]
      · rw [if_neg hp]
        unfold placeLoop
        rw [if_neg hp]
        simpa using ih

/-- C4 (amended): the URL Name Extractor examines every `place`
occurrence in path order, not only the first: it returns the sanitized
successor of the first `place` segment whose candidate passes the
checks (nonempty, not a bare `lat,lon`, not road-like), and absent only
when every such candidate is rejected. -/
theorem C4_every_place_occurrence_scanned (url : String) :
    extrair_nome_da_url url =
      (((placeCandidates (pathParts url.data)).map (fun c => limparCore (unquote c))).find?
          placeAccept).map (fun l => (⟨l⟩ : String)) := by
  unfold extrair_nome_da_url
  rw [placeLoop_eq_find]

/-- C4 counterexample: the candidate after the first `place` is
road-like and rejected, yet the extractor does not return absent — it
examines the second `place` occurrence and returns its candidate. -/
theorem C4_first_place_only_counterexample :
    extrair_nome_da_url
        "https://www.google.com/maps/place/Rua%20Central/place/Museu%20Nacional" =
      some "Museu Nacional" ∧
      ¬extrair_nome_da_url
          "https://www.google.com/maps/place/Rua%20Central/place/Museu%20Nacional" = none := by
  constructor
  · decide
  · decide

/-! ## Helper lemmas: number captures -/

theorem digit_not_space {c : Char} (h : isDigitC c = true) : isPySpace c = false := by
  have h2 : 48 ≤ c.toNat ∧ c.toNat ≤ 57 := by
    simpa [isDigitC] using h
  by_contra hn
  have h3 : isPySpace c = true := by simpa using hn
  simp only [isPySpace, Bool.or_eq_true, Bool.and_eq_true, decide_eq_true_eq] at h3
  omega

theorem takeWhile_all {p : Char → Bool} {l : List Char} (h : ∀ c ∈ l, p c = true) :
    l.takeWhile p = l := by
  induction l with
  | nil => rfl
  | cons x t ih =>
    rw [List.takeWhile_cons, if_pos (h x (by simp))]
    rw [ih (fun c hc => h c (by simp [hc]))]

theorem dropWhile_all {p : Char → Bool} {l : List Char} (h : ∀ c ∈ l, p c = true) :
    l.dropWhile p = [] := by
  induction l with
  | nil => rfl
  | cons x t ih =>
    rw [List.dropWhile_cons, if_pos (h x (by simp))]
    exact ih (fun c hc => h c (by simp [hc]))

theorem dropWhile_nodrop {p : Char → Bool} {l : List Char} (h : ∀ c ∈ l, p c = false) :
    l.dropWhile p = l := by
  cases l with
  | nil => rfl
  | cons x t => rw [List.dropWhile_cons, if_neg (by simp [h x (by simp)])]

theorem pyStrip_eq_self {l : List Char} (h : ∀ c ∈ l, isPySpace c = false) :
    pyStrip l = l := by
  unfold pyStrip
  rw [dropWhile_nodrop h, dropWhile_nodrop (fun c hc => h c (List.mem_reverse.mp hc)),
    List.reverse_reverse]

theorem takeWhile_nil_of_hardB {r : List Char} (h : hardB r = true) :
    r.takeWhile isDigitC = [] := by
  cases r with
  | nil => rfl
  | cons c t =>
    simp only [hardB, Bool.and_eq_true] at h
    rw [List.takeWhile_cons, if_neg (by simpa using h.1)]

theorem dropWhile_self_of_hardB {r : List Char} (h : hardB r = true) :
    r.dropWhile isDigitC = r := by
  cases r with
  | nil => rfl
  | cons c t =>
    simp only [hardB, Bool.and_eq_true] at h
    rw [List.dropWhile_cons, if_neg (by simpa using h.1)]

/-- `numAfterSign` on an integer capture followed by a boundary. -/
theorem numAfterSign_noFrac {neg : Bool} {ds r : List Char} (hds : ¬ds = [])
    (hall : ds.all isDigitC = true) (hr : hardB r = true) :
    numAfterSign neg (ds ++ r) = some (⟨neg, ds, []⟩, r) := by
  have hmem := List.all_eq_true.mp hall
  have ht : (ds ++ r).takeWhile isDigitC = ds := by
    rw [takeWhile_app r hmem, takeWhile_nil_of_hardB hr, List.append_nil]
  have hd : (ds ++ r).dropWhile isDigitC = r := by
    rw [dropWhile_app r hmem, dropWhile_self_of_hardB hr]
  unfold numAfterSign
  rw [ht, hd, if_neg hds]
  cases r with
  | nil => rfl
  | cons c t =>
    simp only [hardB, Bool.and_eq_true] at hr
    split
    · rename_i r2 heq
      obtain ⟨hc, -⟩ := List.cons.injEq .. ▸ heq
      exact absurd hc (by simpa using hr.2)
    · rfl

/-- `numAfterSign` on a fractional capture followed by a boundary. -/
theorem numAfterSign_frac {neg : Bool} {ds fs r : List Char} (hds : ¬ds = [])
    (hall : ds.all isDigitC = true) (hfs : ¬fs = []) (hfall : fs.all isDigitC = true)
    (hr : hardB r = true) :
    numAfterSign neg (ds ++ '.' :: (fs ++ r)) = some (⟨neg, ds, fs⟩, r) := by
  have hmem := List.all_eq_true.mp hall
  have hfmem := List.all_eq_true.mp hfall
  have ht : (ds ++ '.' :: (fs ++ r)).takeWhile isDigitC = ds := by
    rw [takeWhile_app _ hmem, List.takeWhile_cons, if_neg (by decide), List.append_nil]
  have hd : (ds ++ '.' :: (fs ++ r)).dropWhile isDigitC = '.' :: (fs ++ r) := by
    rw [dropWhile_app _ hmem, List.dropWhile_cons, if_neg (by decide)]
  have ht2 : (fs ++ r).takeWhile isDigitC = fs := by
    rw [takeWhile_app r hfmem, takeWhile_nil_of_hardB hr, List.append_nil]
  have hd2 : (fs ++ r).dropWhile isDigitC = r := by
    rw [dropWhile_app r hfmem, dropWhile_self_of_hardB hr]
  unfold numAfterSign
  rw [ht, hd, if_neg hds]
  show (if (fs ++ r).takeWhile isDigitC = [] then
      some ((⟨neg, ds, []⟩ : NumLit), '.' :: (fs ++ r))
    else some ((⟨neg, ds, (fs ++ r).takeWhile isDigitC⟩ : NumLit), (fs ++ r).dropWhile isDigitC)) =
    some (⟨neg, ds, fs⟩, r)
  rw [ht2, hd2, if_neg hfs]

/-- Decomposed well-formedness of a capture. -/
theorem validNum_parts {n : NumLit} (h : validNum n = true) :
    ¬n.ip = [] ∧ (∀ c ∈ n.ip, isDigitC c = true) ∧ ∀ c ∈ n.fp, isDigitC c = true := by
  have h2 : (¬n.ip = [] ∧ ∀ c ∈ n.ip, isDigitC c = true) ∧ ∀ c ∈ n.fp, isDigitC c = true := by
    simpa [validNum] using h
  exact ⟨h2.1.1, h2.1.2, h2.2⟩

/-- `matchNum` recovers a well-formed capture followed by a boundary. -/
theorem matchNum_render {n : NumLit} {r : List Char} (hv : validNum n = true)
    (hr : hardB r = true) : matchNum (numRender n ++ r) = some (n, r) := by
  obtain ⟨hip, hipall, hfpall⟩ := validNum_parts hv
  rcases n with ⟨neg, ip, fp⟩
  simp only at hip hipall hfpall
  have hcore : ∀ b : Bool, numAfterSign b ((ip ++ (if fp = [] then [] else '.' :: fp)) ++ r) =
      some (⟨b, ip, fp⟩, r) := by
    intro b
    by_cases hfp : fp = []
    · rw [hfp]
      simpa using numAfterSign_noFrac hip (List.all_eq_true.mpr hipall) hr
    · rw [if_neg hfp, List.append_assoc, List.cons_append]
      exact numAfterSign_frac hip (List.all_eq_true.mpr hipall) hfp
        (List.all_eq_true.mpr hfpall) hr
  cases neg with
  | true =>
    have hre : numRender ⟨true, ip, fp⟩ ++ r =
        '-' :: ((ip ++ (if fp = [] then [] else '.' :: fp)) ++ r) := by
      simp [numRender]
    rw [hre]
    exact hcore true
  | false =>
    have hre : numRender ⟨false, ip, fp⟩ ++ r =
        (ip ++ (if fp = [] then [] else '.' :: fp)) ++ r := by
      simp [numRender]
    rw [hre]
    cases ip with
    | nil => exact absurd rfl hip
    | cons c ipt =>
      have hc : isDigitC c = true := hipall c (by simp)
      rw [List.cons_append, List.cons_append]
      unfold matchNum
      split
      · rename_i t heq
        obtain ⟨hc2, -⟩ := List.cons.injEq .. ▸ heq
        rw [hc2] at hc
        exact absurd hc (by decide)
      · have h2 := hcore false
        rw [List.cons_append, List.cons_append] at h2
        exact h2

theorem mem_numRender_nospace {n : NumLit} (hv : validNum n = true) :
    ∀ c ∈ numRender n, isPySpace c = false := by
  obtain ⟨hip, hipall, hfpall⟩ := validNum_parts hv
  intro c hc
  simp only [numRender, List.mem_append] at hc
  rcases hc with (hc | hc) | hc
  · by_cases hneg : n.neg <;> simp [hneg] at hc
    rw [hc]
    decide
  · exact digit_not_space (hipall c hc)
  · by_cases hfp : n.fp = [] <;> simp [hfp] at hc
    rcases hc with hc | hc
    · rw [hc]
      decide
    · exact digit_not_space (hfpall c hc)

/-- `floatAfterSign` on the unsigned text of a well-formed capture. -/
theorem floatAfterSign_render {b : Bool} {ip fp : List Char} (hip : ¬ip = [])
    (hipall : ∀ c ∈ ip, isDigitC c = true) (hfpall : ∀ c ∈ fp, isDigitC c = true) :
    floatAfterSign b (ip ++ (if fp = [] then [] else '.' :: fp)) =
      some (floatVal b ip fp) := by
  by_cases hfp : fp = []
  · have hre : ip ++ (if fp = [] then [] else '.' :: fp) = ip := by
      rw [if_pos hfp, List.append_nil]
    rw [hre]
    unfold floatAfterSign
    rw [dropWhile_all hipall]
    show (if ip.takeWhile isDigitC = [] then none
      else some (floatVal b (ip.takeWhile isDigitC) [])) = some (floatVal b ip fp)
    rw [takeWhile_all hipall, if_neg hip, hfp]
  · rw [if_neg hfp]
    unfold floatAfterSign
    rw [dropWhile_app _ hipall, List.dropWhile_cons, if_neg (by decide)]
    show (if fp.dropWhile isDigitC = [] then
        if ((ip ++ '.' :: fp).takeWhile isDigitC = [] && fp.takeWhile isDigitC = []) = true
          then none
        else some (floatVal b ((ip ++ '.' :: fp).takeWhile isDigitC) (fp.takeWhile isDigitC))
      else none) = some (floatVal b ip fp)
    have hdot : ('.' :: fp).takeWhile isDigitC = [] := by
      rw [List.takeWhile_cons, if_neg (by decide)]
    rw [dropWhile_all hfpall, if_pos rfl, takeWhile_app _ hipall, hdot, List.append_nil,
      takeWhile_all hfpall, if_neg (by simp [hip])]

/-- `float` on the text of a well-formed capture yields its exact
value; in particular the conversion cannot raise. -/
theorem pyFloat_render {n : NumLit} (hv : validNum n = true) :
    pyFloat (numRender n) = some (numVal n) := by
  obtain ⟨hip, hipall, hfpall⟩ := validNum_parts hv
  have hstrip := pyStrip_eq_self (mem_numRender_nospace hv)
  rcases n with ⟨neg, ip, fp⟩
  simp only at hip hipall hfpall
  unfold pyFloat
  rw [hstrip]
  cases neg with
  | true =>
    have hre : numRender ⟨true, ip, fp⟩ =
        '-' :: (ip ++ (if fp = [] then [] else '.' :: fp)) := by
      simp [numRender]
    rw [hre]
    exact floatAfterSign_render hip hipall hfpall
  | false =>
    have hre : numRender ⟨false, ip, fp⟩ = ip ++ (if fp = [] then [] else '.' :: fp) := by
      simp [numRender]
    rw [hre]
    cases ip with
    | nil => exact absurd rfl hip
    | cons c ipt =>
      have hc : isDigitC c = true := hipall c (by simp)
      rw [List.cons_append]
      split
      · rename_i heq
        obtain ⟨hc2, -⟩ := List.cons.injEq .. ▸ heq
        rw [hc2] at hc
        exact absurd hc (by decide)
      · rename_i heq
        obtain ⟨hc2, -⟩ := List.cons.injEq .. ▸ heq
        rw [hc2] at hc
        exact absurd hc (by decide)
      · have h2 := floatAfterSign_render (b := false) hip hipall hfpall
        rw [List.cons_append] at h2
        exact h2

/-- Every capture produced by `numAfterSign` is well formed. -/
theorem numAfterSign_valid {b : Bool} {cs1 : List Char} {n : NumLit} {r : List Char}
    (h : numAfterSign b cs1 = some (n, r)) : validNum n = true := by
  unfold numAfterSign at h
  by_cases h0 : cs1.takeWhile isDigitC = []
  · rw [if_pos h0] at h
    exact absurd h (by simp)
  · rw [if_neg h0] at h
    split at h
    · rename_i r2 heq
      by_cases h1 : r2.takeWhile isDigitC = []
      · rw [if_pos h1] at h
        have hn : n = (⟨b, cs1.takeWhile isDigitC, []⟩ : NumLit) := by
          simpa using congrArg Prod.fst (Option.some.inj h).symm
        rw [hn]
        simp [validNum, h0, List.all_takeWhile]
      · rw [if_neg h1] at h
        have hn : n = (⟨b, cs1.takeWhile isDigitC, r2.takeWhile isDigitC⟩ : NumLit) := by
          simpa using congrArg Prod.fst (Option.some.inj h).symm
        rw [hn]
        simp [validNum, h0, List.all_takeWhile]
    · have hn : n = (⟨b, cs1.takeWhile isDigitC, []⟩ : NumLit) := by
        simpa using congrArg Prod.fst (Option.some.inj h).symm
      rw [hn]
      simp [validNum, h0, List.all_takeWhile]

theorem matchNum_valid {cs : List Char} {n : NumLit} {r : List Char}
    (h : matchNum cs = some (n, r)) : validNum n = true := by
  unfold matchNum at h
  split at h
  · exact numAfterSign_valid h
  · exact numAfterSign_valid h

theorem pairTry_valid {cs : List Char} {p : NumLit × NumLit}
    (h : pairTry cs = some p) : validNum p.1 = true ∧ validNum p.2 = true := by
  unfold pairTry at h
  split at h
  · exact absurd h (by simp)
  · rename_i n1 r1 heq1
    split at h
    · rename_i r2
      split at h
      · exact absurd h (by simp)
      · rename_i n2 r3 heq2
        have hp := Option.some.inj h
        rw [← hp]
        exact ⟨matchNum_valid heq1, matchNum_valid heq2⟩
    · exact absurd h (by simp)

theorem arrobaSearch_valid {cs : List Char} {p : NumLit × NumLit}
    (h : arrobaSearch cs = some p) : validNum p.1 = true ∧ validNum p.2 = true := by
  induction cs with
  | nil => exact absurd h (by simp [arrobaSearch])
  | cons c t ih =>
    unfold arrobaSearch at h
    by_cases hc : c = '@'
    · rw [if_pos hc] at h
      split at h
      · rename_i r heq
        exact (Option.some.inj h) ▸ pairTry_valid heq
      · exact ih h
    · rw [if_neg hc] at h
      exact ih h

theorem pairSearch_valid {cs : List Char} {p : NumLit × NumLit}
    (h : pairSearch cs = some p) : validNum p.1 = true ∧ validNum p.2 = true := by
  induction cs with
  | nil => exact absurd h (by simp [pairSearch])
  | cons c t ih =>
    unfold pairSearch at h
    split at h
    · rename_i r heq
      exact (Option.some.inj h) ▸ pairTry_valid heq
    · exact ih h

theorem threeDSearch_valid {cs : List Char} {n : NumLit}
    (h : threeDSearch cs = some n) : validNum n = true := by
  induction cs with
  | nil => exact absurd h (by simp [threeDSearch])
  | cons c t ih =>
    unfold threeDSearch at h
    by_cases hc : c = '!'
    · rw [if_pos hc] at h
      split at h
      · split at h
        · rename_i n2 r heq
          exact (Option.some.inj h) ▸ matchNum_valid heq
        · exact ih h
      · exact ih h
    · rw [if_neg hc] at h
      exact ih h

theorem fourDSearch_valid {cs : List Char} {n : NumLit}
    (h : fourDSearch cs = some n) : validNum n = true := by
  induction cs with
  | nil => exact absurd h (by simp [fourDSearch])
  | cons c t ih =>
    unfold fourDSearch at h
    by_cases hc : c = '!'
    · rw [if_pos hc] at h
      split at h
      · split at h
        · rename_i n2 r heq
          exact (Option.some.inj h) ▸ matchNum_valid heq
        · exact ih h
      · exact ih h
    · rw [if_neg hc] at h
      exact ih h

theorem findSome?_eq_some {α β : Type} {f : α → Option β} {l : List α} {b : β}
    (h : l.findSome? f = some b) : ∃ a ∈ l, f a = some b := by
  induction l with
  | nil => simp [List.findSome?] at h
  | cons x t ih =>
    rw [List.findSome?_cons] at h
    revert h
    cases hx : f x with
    | some v => intro h; exact ⟨x, by simp, by simp [hx, ← h]⟩
    | none => intro h; obtain ⟨a, ha, hfa⟩ := ih h; exact ⟨a, by simp [ha], hfa⟩

theorem qExtract_valid {cs : List Char} {p : NumLit × NumLit}
    (h : qExtract cs = some p) : validNum p.1 = true ∧ validNum p.2 = true := by
  unfold qExtract at h
  obtain ⟨v, -, hv⟩ := findSome?_eq_some h
  exact pairSearch_valid hv

/-- `floatPair` on well-formed captures: the conversion succeeds with
the exact values. -/
theorem floatPair_values {n1 n2 : NumLit} (h1 : validNum n1 = true)
    (h2 : validNum n2 = true) :
    floatPair n1 n2 = .ok (some (numVal n1), some (numVal n2)) := by
  unfold floatPair
  rw [pyFloat_render h1, pyFloat_render h2]

/-- A rendered capture is never empty. -/
theorem numRender_ne_nil {n : NumLit} (hv : validNum n = true) : ¬numRender n = [] := by
  obtain ⟨hip, -, -⟩ := validNum_parts hv
  simp [numRender]
  intro h1 h2
  exact absurd h2 hip

/-- `\s*` consumes nothing in front of a rendered capture. -/
theorem dropSpaces_render {n : NumLit} (hv : validNum n = true) (r : List Char) :
    (numRender n ++ r).dropWhile isPySpace = numRender n ++ r := by
  rcases hren : numRender n with _ | ⟨c, t⟩
  · exact absurd hren (numRender_ne_nil hv)
  · have hc : isPySpace c = false :=
      mem_numRender_nospace hv c (by rw [hren]; simp)
    rw [List.cons_append, List.dropWhile_cons, if_neg (by simp [hc])]

/-- One attempt of the pair pattern on rendered captures. -/
theorem pairTry_render {n1 n2 : NumLit} {r : List Char} (h1 : validNum n1 = true)
    (h2 : validNum n2 = true) (hr : hardB r = true) :
    pairTry (numRender n1 ++ ',' :: (numRender n2 ++ r)) = some (n1, n2) := by
  unfold pairTry
  rw [matchNum_render h1 (by simp [hardB, isDigitC])]
  show (match matchNum ((numRender n2 ++ r).dropWhile isPySpace) with
    | none => none
    | some (n2', _) => some (n1, n2')) = some (n1, n2)
  rw [dropSpaces_render h2, matchNum_render h2 hr]

/-- The `@` scanner finds the attempt at the first `@`. -/
theorem arrobaSearch_append {pre rest : List Char} {p : NumLit × NumLit}
    (hpre : ∀ c ∈ pre, ¬c = '@') (h : pairTry rest = some p) :
    arrobaSearch (pre ++ '@' :: rest) = some p := by
  induction pre with
  | nil =>
    rw [List.nil_append]
    unfold arrobaSearch
    rw [if_pos rfl, h]
  | cons c t ih =>
    rw [List.cons_append]
    unfold arrobaSearch
    rw [if_neg (hpre c (by simp))]
    exact ih (fun c2 hc2 => hpre c2 (by simp [hc2]))

/-! ## Claims C5 and C10 -/

/-- C5 counterexample: a URL that contains the substring
`@12.34,-56.78` but also an earlier `@lat,lon` occurrence; the leftmost
occurrence wins, so extraction does not return (12.34, -56.78). -/
theorem C5_leftmost_counterexample :
    containsSub "@12.34,-56.78".data "https://g/@1.0,2.0/@12.34,-56.78".data = true ∧
      extrair_lat_lon "https://g/@1.0,2.0/@12.34,-56.78" = .ok (some 1, some 2) ∧
      ¬extrair_lat_lon "https://g/@1.0,2.0/@12.34,-56.78" =
        .ok (some (12.34 : ℚ), some (-56.78 : ℚ)) := by
  refine ⟨by decide, by decide, ?_⟩
  intro hEq
  have h2 : extrair_lat_lon "https://g/@1.0,2.0/@12.34,-56.78" =
      .ok ((some 1 : Option ℚ), (some 2 : Option ℚ)) := by decide
  rw [h2] at hEq
  have h3 : ((some 1 : Option ℚ), (some 2 : Option ℚ)) =
      ((some (12.34 : ℚ) : Option ℚ), (some (-56.78 : ℚ) : Option ℚ)) :=
    Except.ok.inj hEq
  have h4 : (1 : ℚ) = 12.34 := Option.some.inj (congrArg Prod.fst h3)
  norm_num at h4

/-- C5 (amended): extraction of `@12.34,-56.78` returns exactly
(12.34, -56.78) whenever no `@` precedes the occurrence and it is not
immediately extended by a digit or dot; and the three patterns obey the
strict priority order — whenever the `@` pattern matches, its values
are the result, and the `!3d`/`!4d` values are the result whenever the
`@` pattern fails. -/
theorem C5_arroba_priority :
    (∀ pre post : String, (∀ c ∈ pre.data, ¬c = '@') → hardBS post = true →
      extrair_lat_lon (pre ++ "@12.34,-56.78" ++ post) =
        .ok (some (12.34 : ℚ), some (-56.78 : ℚ))) ∧
    (∀ (url : String) (n1 n2 : NumLit), arrobaSearch url.data = some (n1, n2) →
      extrair_lat_lon url = .ok (some (numVal n1), some (numVal n2))) ∧
    (∀ (url : String) (n1 n2 : NumLit), arrobaSearch url.data = none →
      threeDSearch url.data = some n1 → fourDSearch url.data = some n2 →
      extrair_lat_lon url = .ok (some (numVal n1), some (numVal n2))) := by
  refine ⟨?_, ?_, ?_⟩
  · intro pre post hpre hpost
    have hdata : (pre ++ "@12.34,-56.78" ++ post).data =
        pre.data ++ '@' :: (numRender ⟨false, ['1', '2'], ['3', '4']⟩ ++
          ',' :: (numRender ⟨true, ['5', '6'], ['7', '8']⟩ ++ post.data)) := by
      have h1 : ∀ a b : String, (a ++ b).data = a.data ++ b.data := fun a b => rfl
      rw [h1, h1]
      have h2 : "@12.34,-56.78".data =
          '@' :: (numRender ⟨false, ['1', '2'], ['3', '4']⟩ ++
            ',' :: numRender ⟨true, ['5', '6'], ['7', '8']⟩) := by decide
      rw [h2]
      simp
    have hv1 : numVal ⟨false, ['1', '2'], ['3', '4']⟩ = (12.34 : ℚ) := by
      have hd : numVal ⟨false, ['1', '2'], ['3', '4']⟩ = mkRat 1234 100 := by decide
      rw [hd, Rat.mkRat_eq_div]
      norm_num
    have hv2 : numVal ⟨true, ['5', '6'], ['7', '8']⟩ = (-56.78 : ℚ) := by
      have hd : numVal ⟨true, ['5', '6'], ['7', '8']⟩ = mkRat (-5678) 100 := by decide
      rw [hd, Rat.mkRat_eq_div]
      norm_num
    unfold extrair_lat_lon extrairCore
    rw [hdata, arrobaSearch_append hpre (pairTry_render (by decide) (by decide) hpost)]
    show floatPair ⟨false, ['1', '2'], ['3', '4']⟩ ⟨true, ['5', '6'], ['7', '8']⟩ =
      Except.ok (some (12.34 : ℚ), some (-56.78 : ℚ))
    rw [floatPair_values (by decide) (by decide), hv1, hv2]
  · intro url n1 n2 h
    unfold extrair_lat_lon extrairCore
    rw [h]
    show floatPair n1 n2 = Except.ok (some (numVal n1), some (numVal n2))
    exact floatPair_values (arrobaSearch_valid h).1 (arrobaSearch_valid h).2
  · intro url n1 n2 h0 h1 h2
    unfold extrair_lat_lon extrairCore
    rw [h0, h1, h2]
    show floatPair n1 n2 = Except.ok (some (numVal n1), some (numVal n2))
    exact floatPair_values (threeDSearch_valid h1) (fourDSearch_valid h2)

/-- C5 witness: a typical place URL with the coordinate block followed
by a zoom segment. -/
theorem C5_arroba_priority_witness :
    (∀ c ∈ "https://www.google.com/maps/place/X/".data, ¬c = '@') ∧
      hardBS ",15z" = true ∧
      extrair_lat_lon "https://www.google.com/maps/place/X/@12.34,-56.78,15z" =
        .ok (some (12.34 : ℚ), some (-56.78 : ℚ)) := by
  refine ⟨by decide, by decide, ?_⟩
  have h := C5_arroba_priority.1 "https://www.google.com/maps/place/X/" ",15z"
    (by decide) (by decide)
  have he : ("https://www.google.com/maps/place/X/" ++ "@12.34,-56.78" ++ ",15z" : String) =
      "https://www.google.com/maps/place/X/@12.34,-56.78,15z" := by decide
  rw [he] at h
  exact h

/-- C10: the `@lat,lon` pattern is matched by unanchored search over
the whole URL string — wherever `@<number>,<number>` occurs (query
string and fragment included), with no earlier `@` and no digit or dot
extending the match, extraction returns those two numbers. -/
theorem C10_arroba_search_whole_string (n1 n2 : NumLit) (pre post : String)
    (h1 : validNum n1 = true) (h2 : validNum n2 = true)
    (hpre : ∀ c ∈ pre.data, ¬c = '@') (hpost : hardBS post = true) :
    extrair_lat_lon
        (pre ++ (⟨'@' :: (numRender n1 ++ ',' :: numRender n2)⟩ : String) ++ post) =
      .ok (some (numVal n1), some (numVal n2)) := by
  have hdata : (pre ++ (⟨'@' :: (numRender n1 ++ ',' :: numRender n2)⟩ : String) ++ post).data =
      pre.data ++ '@' :: (numRender n1 ++ ',' :: (numRender n2 ++ post.data)) := by
    have hh : ∀ a b : String, (a ++ b).data = a.data ++ b.data := fun a b => rfl
    rw [hh, hh]
    simp
  unfold extrair_lat_lon extrairCore
  rw [hdata, arrobaSearch_append hpre (pairTry_render h1 h2 hpost)]
  show floatPair n1 n2 = Except.ok (some (numVal n1), some (numVal n2))
  exact floatPair_values h1 h2

/-- C10 witness: the occurrence sits after the query string and inside
the fragment of the URL. -/
theorem C10_arroba_search_whole_string_witness :
    validNum ⟨false, ['3'], ['5']⟩ = true ∧ validNum ⟨true, ['7'], ['2', '5']⟩ = true ∧
      (∀ c ∈ "https://www.google.com/maps?x=1#frag".data, ¬c = '@') ∧
      hardBS "?z" = true ∧
      extrair_lat_lon "https://www.google.com/maps?x=1#frag@3.5,-7.25?z" =
        .ok (some (mkRat 35 10), some (mkRat (-725) 100)) := by
  refine ⟨by decide, by decide, by decide, by decide, ?_⟩
  have h := C10_arroba_search_whole_string ⟨false, ['3'], ['5']⟩ ⟨true, ['7'], ['2', '5']⟩
    "https://www.google.com/maps?x=1#frag" "?z" (by decide) (by decide) (by decide) (by decide)
  have he : ("https://www.google.com/maps?x=1#frag" ++
      (⟨'@' :: (numRender ⟨false, ['3'], ['5']⟩ ++ ',' :: numRender ⟨true, ['7'], ['2', '5']⟩)⟩ :
        String) ++ "?z") = "https://www.google.com/maps?x=1#frag@3.5,-7.25?z" := by decide
  have hv1 : numVal ⟨false, ['3'], ['5']⟩ = mkRat 35 10 := by decide
  have hv2 : numVal ⟨true, ['7'], ['2', '5']⟩ = mkRat (-725) 100 := by decide
  rw [he, hv1, hv2] at h
  exact h

/-! ## Claims C6 and C7 -/

/-- `floatPair` yields a present pair or an error, never a partial
pair. -/
theorem floatPair_shape (n1 n2 : NumLit) :
    (∃ a b, floatPair n1 n2 = .ok (some a, some b)) ∨ ∃ e, floatPair n1 n2 = .error e := by
  unfold floatPair
  split
  · rename_i a b heq1 heq2
    exact Or.inl ⟨a, b, rfl⟩
  · exact Or.inr ⟨(), rfl⟩

/-- Every branch of the coordinate extractor returns both values, both
absences, or raises. -/
theorem extrairCore_shape (cs : List Char) :
    extrairCore cs = .ok (none, none) ∨
      (∃ a b, extrairCore cs = .ok (some a, some b)) ∨ ∃ e, extrairCore cs = .error e := by
  unfold extrairCore
  split
  · rename_i n1 n2 heq
    rcases floatPair_shape n1 n2 with h | h
    · exact Or.inr (Or.inl h)
    · exact Or.inr (Or.inr h)
  · split
    · rename_i n1 n2 heq1 heq2
      rcases floatPair_shape n1 n2 with h | h
      · exact Or.inr (Or.inl h)
      · exact Or.inr (Or.inr h)
    · split
      · rename_i n1 n2 heq
        rcases floatPair_shape n1 n2 with h | h
        · exact Or.inr (Or.inl h)
        · exact Or.inr (Or.inr h)
      · exact Or.inl rfl

/-- C6: the coordinate extractor never propagates an exception — the
numeric conversion of every regex capture succeeds — and when no
pattern matches it returns (absent, absent). -/
theorem C6_no_exception_absent_pair (url : String) :
    (extrair_lat_lon url).isOk = true ∧
      (arrobaSearch url.data = none →
        threeDSearch url.data = none ∨ fourDSearch url.data = none →
        qExtract url.data = none →
        extrair_lat_lon url = .ok (none, none)) := by
  constructor
  · unfold extrair_lat_lon extrairCore
    split
    · rename_i n1 n2 heq
      rw [floatPair_values (arrobaSearch_valid heq).1 (arrobaSearch_valid heq).2]
      rfl
    · split
      · rename_i n1 n2 heq1 heq2
        rw [floatPair_values (threeDSearch_valid heq1) (fourDSearch_valid heq2)]
        rfl
      · split
        · rename_i n1 n2 heq
          rw [floatPair_values (qExtract_valid heq).1 (qExtract_valid heq).2]
          rfl
        · rfl
  · intro h0 h1 h2
    unfold extrair_lat_lon extrairCore
    rw [h0]
    rcases h3 : threeDSearch url.data with _ | n1 <;>
      rcases h4 : fourDSearch url.data with _ | n2
    · rw [h2]
    · rw [h2]
    · rw [h2]
    · rcases h1 with h1 | h1
      · rw [h1] at h3
        exact absurd h3 (by simp)
      · rw [h1] at h4
        exact absurd h4 (by simp)

/-- C6 witness: a URL with no coordinate pattern at all. -/
theorem C6_no_exception_absent_pair_witness :
    arrobaSearch "https://maps.app.goo.gl/AbCdEf".data = none ∧
      (threeDSearch "https://maps.app.goo.gl/AbCdEf".data = none ∨
        fourDSearch "https://maps.app.goo.gl/AbCdEf".data = none) ∧
      qExtract "https://maps.app.goo.gl/AbCdEf".data = none ∧
      extrair_lat_lon "https://maps.app.goo.gl/AbCdEf" = .ok (none, none) :=
  ⟨by decide, Or.inl (by decide), by decide,
    (C6_no_exception_absent_pair "https://maps.app.goo.gl/AbCdEf").2 (by decide)
      (Or.inl (by decide)) (by decide)⟩

/-- C7: a Result carries either both coordinates or neither — every
branch of the extractor produces both-or-neither, and the exception
path of the Link Processor produces the absent pair. -/
theorem C7_both_or_neither (dist : ℚ → ℚ → ℚ → ℚ → ℚ) (net : Net) (link : String) :
    ((processar_link dist net link).lat = none ∧ (processar_link dist net link).lon = none) ∨
      ∃ a b, (processar_link dist net link).lat = some a ∧
        (processar_link dist net link).lon = some b := by
  unfold processar_link extrair_lat_lon
  rcases extrairCore_shape (seguir_redirecionamento_seguro net link).data with h | ⟨a, b, h⟩ | ⟨e, h⟩
  · rw [h]
    exact Or.inl ⟨rfl, rfl⟩
  · rw [h]
    exact Or.inr ⟨a, b, rfl, rfl⟩
  · rw [h]
    exact Or.inl ⟨rfl, rfl⟩

/-! ## Claim C8 -/

/-- C8: the Redirect Resolver returns the original URL unchanged when
both requests fail, and whenever the final resolved host is neither an
exact whitelisted host nor a subdomain of one — even if that final URL
carries valid coordinates.  (The model is total: no exception can
propagate to the caller.) -/
theorem C8_redirect_whitelist (net : Net) (url : String) :
    (net.head url = none → net.get url = none →
        seguir_redirecionamento_seguro net url = url) ∧
      (∀ u : String, net.head url = some u →
        (∀ p ∈ HOSTS_PERMITIDOS, ¬(hostnameOf u.data = p.data ∨
          List.isSuffixOf ('.' :: p.data) (hostnameOf u.data) = true)) →
        seguir_redirecionamento_seguro net url = url) ∧
      (∀ u : String, net.head url = none → net.get url = some u →
        (∀ p ∈ HOSTS_PERMITIDOS, ¬(hostnameOf u.data = p.data ∨
          List.isSuffixOf ('.' :: p.data) (hostnameOf u.data) = true)) →
        seguir_redirecionamento_seguro net url = url) := by
  have hperm : ∀ u : String,
      (∀ p ∈ HOSTS_PERMITIDOS, ¬(hostnameOf u.data = p.data ∨
        List.isSuffixOf ('.' :: p.data) (hostnameOf u.data) = true)) →
      host_permitido u = false := by
    intro u h
    rw [Bool.eq_false_iff]
    intro htrue
    obtain ⟨p, hp, hcond⟩ := List.any_eq_true.mp htrue
    rw [Bool.or_eq_true, decide_eq_true_eq] at hcond
    exact h p hp hcond
  refine ⟨?_, ?_, ?_⟩
  · intro hh hg
    unfold seguir_redirecionamento_seguro
    rw [hh, hg]
  · intro u hh h
    unfold seguir_redirecionamento_seguro
    rw [hh]
    show (if host_permitido u then u else url) = url
    rw [hperm u h, if_neg (by simp)]
  · intro u hh hg h
    unfold seguir_redirecionamento_seguro
    rw [hh, hg]
    show (if host_permitido u then u else url) = url
    rw [hperm u h, if_neg (by simp)]

/-- C8 witness: a shortlink resolving to an attacker-controlled host
that does carry valid coordinates; the original URL is kept. -/
theorem C8_redirect_whitelist_witness :
    netEvil.head "https://maps.app.goo.gl/x" = some "https://evil.example.com/@12.34,-56.78" ∧
      (∀ p ∈ HOSTS_PERMITIDOS,
        ¬(hostnameOf "https://evil.example.com/@12.34,-56.78".data = p.data ∨
          List.isSuffixOf ('.' :: p.data)
            (hostnameOf "https://evil.example.com/@12.34,-56.78".data) = true)) ∧
      seguir_redirecionamento_seguro netEvil "https://maps.app.goo.gl/x" =
        "https://maps.app.goo.gl/x" :=
  ⟨by decide, by decide,
    (C8_redirect_whitelist netEvil "https://maps.app.goo.gl/x").2.1
      "https://evil.example.com/@12.34,-56.78" (by decide) (by decide)⟩

/-! ## Claim C9 -/

/-- The URL Name Extractor never returns a road-like name. -/
theorem placeLoop_not_via {ps : List (List Char)} {l : List Char}
    (h : placeLoop ps = some l) : ehViaCore l = false := by
  induction ps with
  | nil => simp [placeLoop] at h
  | cons p rest ih =>
    cases rest with
    | nil => simp [placeLoop] at h
    | cons nxt t =>
      unfold placeLoop at h
      by_cases hp : p = "place".data
      · rw [if_pos hp] at h
        by_cases h1 : limparCore (unquote nxt) = []
        · rw [if_pos h1] at h
          exact ih h
        · rw [if_neg h1] at h
          by_cases h2 : coordPrefix (limparCore (unquote nxt)) = true
          · rw [if_pos h2] at h
            exact ih h
          · rw [if_neg h2] at h
            by_cases h3 : ehViaCore (limparCore (unquote nxt)) = true
            · rw [if_pos h3] at h
              exact ih h
            · rw [if_neg h3] at h
              rw [← Option.some.inj h]
              exact Bool.eq_false_iff.mpr h3
      · rw [if_neg hp] at h
        exact ih h

/-- C9 counterexample: the name `"km "` contains the keyword `"km "`
after lowercasing, yet `eh_provavel_via` strips the name first and
returns false. -/
theorem C9_keyword_counterexample :
    containsSub "km ".data (pyLower "km ".data) = true ∧
      eh_provavel_via "km " = false := by
  constructor <;> decide

/-- C9 (amended): a name containing `"r."` or `"km "` after stripping
and lowercasing is classified road-like; consequently a business name
such as "Sr. Silva Restaurante" is classified road-like and is never
returned by the URL Name Extractor. -/
theorem C9_r_dot_km_keywords :
    (∀ s : String, containsSub "r.".data (pyLower (pyStrip s.data)) = true ∨
        containsSub "km ".data (pyLower (pyStrip s.data)) = true →
      eh_provavel_via s = true) ∧
      eh_provavel_via "Sr. Silva Restaurante" = true ∧
      ∀ url : String, ¬extrair_nome_da_url url = some "Sr. Silva Restaurante" := by
  refine ⟨?_, by decide, ?_⟩
  · intro s h
    show PALAVRAS_CHAVE_VIA.any (fun k => containsSub k.data (pyLower (pyStrip s.data))) = true
    apply List.any_eq_true.mpr
    rcases h with h | h
    · exact ⟨"r.", by decide, h⟩
    · exact ⟨"km ", by decide, h⟩
  · intro url hcontra
    unfold extrair_nome_da_url at hcontra
    rcases hp : placeLoop (pathParts url.data) with _ | l
    · rw [hp] at hcontra
      exact absurd hcontra (by simp)
    · rw [hp] at hcontra
      have hl : (⟨l⟩ : String) = "Sr. Silva Restaurante" := by simpa using hcontra
      have hdata : l = "Sr. Silva Restaurante".data := congrArg String.data hl
      have hvia := placeLoop_not_via hp
      rw [hdata] at hvia
      exact absurd hvia (by decide)

/-- C9 witness for the amended keyword property. -/
theorem C9_r_dot_km_keywords_witness :
    (containsSub "r.".data (pyLower (pyStrip "Posto km 13".data)) = true ∨
        containsSub "km ".data (pyLower (pyStrip "Posto km 13".data)) = true) ∧
      eh_provavel_via "Posto km 13" = true :=
  ⟨Or.inr (by decide),
    C9_r_dot_km_keywords.1 "Posto km 13" (Or.inr (by decide))⟩
